import Mathlib

/-!
Verification development for the schema-mongo repository.

The development shallowly embeds the three core components of the library:

* the JSON-Schema to MongoDB-schema converter `convertJsonSchemaToMongoSchema`
  (src/lib.ts),
* the custom-type registry `MongoTypeRegistry` (src/registry/MongoTypeRegistry.ts),
* the Zod adapter `processZodType` / `zodToCompatibleJsonSchema` (src/adapters/zod.ts).

JavaScript objects are modelled as insertion-ordered association lists of
string keys; property assignment (`obj[k] = v`) updates an existing key in
place and appends a fresh key at the end, exactly as in JavaScript.  The
JavaScript notion of truthiness is modelled explicitly because the converter
branches on `if (schema.__mongoType)` and `if (schema.type && ...)`.
Diagnostic output (`console.warn`) is a pure side channel and is not part of
the value semantics modelled here.
-/

set_option autoImplicit false

namespace SchemaMongo

/-- Model of a JavaScript/JSON value as manipulated by the converter.  The
`undefined` constructor models the JavaScript value `undefined`, which can be
stored in an object property (for example the adapter writes
`result.minLength = check.value` even when `check.value` is `undefined`). -/
inductive JValue where
  | undefined : JValue
  | null : JValue
  | bool : Bool → JValue
  | num : Int → JValue
  | str : String → JValue
  | arr : List JValue → JValue
  | obj : List (String × JValue) → JValue

/-- JavaScript truthiness of a value: `undefined`, `null`, `false`, `0` and the
empty string are falsy; every other value (including empty arrays and empty
objects) is truthy. -/
def truthy : JValue → Bool
  | .undefined => false
  | .null => false
  | .bool b => b
  | .num n => n != 0
  | .str s => s != ""
  | .arr _ => true
  | .obj _ => true

/-- Truthiness of a possibly-absent property (`undefined` when absent). -/
def truthyO : Option JValue → Bool
  | some v => truthy v
  | none => false

/-- The JavaScript test `typeof value === 'object' && value !== null`, used by
the converter to decide whether to recurse: objects and arrays qualify,
`null` does not (despite `typeof null === 'object'`). -/
def isObjLike : JValue → Bool
  | .obj _ => true
  | .arr _ => true
  | _ => false

/-- Property read on an association list (first matching key). -/
def jlookup : List (String × JValue) → String → Option JValue
  | [], _ => none
  | (k, v) :: rest, key => if k == key then some v else jlookup rest key

/-- JavaScript property assignment `o[k] = v`: update the existing key in
place (keeping its position) or append a new key at the end. -/
def jsSet : List (String × JValue) → String → JValue → List (String × JValue)
  | [], k, v => [(k, v)]
  | (k', v') :: rest, k, v => if k' == k then (k, v) :: rest else (k', v') :: jsSet rest k v

/-- Entries of an array as seen by `Object.entries`: index keys "0", "1", …
in order, paired with the elements. -/
def enumEntries (n : Nat) : List JValue → List (String × JValue)
  | [] => []
  | x :: xs => (toString n, x) :: enumEntries (n + 1) xs

/-- `Object.entries` of a value: the own enumerable entries in insertion
order.  Arrays expose their index entries.  Primitive values have no
entries (the converter is never invoked on primitives: every recursive call
site guards with `typeof value === 'object' && value !== null`). -/
def jsEntries : JValue → List (String × JValue)
  | .obj kvs => kvs
  | .arr xs => enumEntries 0 xs
  | _ => []

/-- Property read on a value: objects look up their entries; reading a named
(non-index) property off an array or a primitive yields `undefined`. -/
def jget : JValue → String → Option JValue
  | .obj kvs, k => jlookup kvs k
  | _, _ => none

mutual
/-- Structural size of a value, used as the termination measure of the
recursive converter. -/
def jsize : JValue → Nat
  | .undefined => 1
  | .null => 1
  | .bool _ => 1
  | .num _ => 1
  | .str _ => 1
  | .arr xs => 1 + lsizeA xs
  | .obj kvs => 1 + lsizeO kvs

/-- Size of a list of values. -/
def lsizeA : List JValue → Nat
  | [] => 0
  | x :: xs => jsize x + 2 + lsizeA xs

/-- Size of a list of entries (keys do not count). -/
def lsizeO : List (String × JValue) → Nat
  | [] => 0
  | p :: ps => jsize p.2 + 2 + lsizeO ps
end

theorem lsizeO_enumEntries (xs : List JValue) : ∀ n, lsizeO (enumEntries n xs) = lsizeA xs := by
  induction xs with
  | nil => intro n; rfl
  | cons x xs ih => intro n; simp [enumEntries, lsizeO, lsizeA, ih]

theorem lsizeO_jsEntries_lt (v : JValue) : lsizeO (jsEntries v) < jsize v := by
  cases v <;> simp [jsEntries, jsize, lsizeO, lsizeO_enumEntries]

theorem jsize_lt_of_mem_lsizeO {p : String × JValue} {l : List (String × JValue)}
    (h : p ∈ l) : jsize p.2 < lsizeO l := by
  induction l with
  | nil => cases h
  | cons q l ih =>
    rcases List.mem_cons.mp h with h | h
    · subst h; simp [lsizeO]; omega
    · have := ih h; simp [lsizeO]; omega

theorem jsize_lt_of_mem_lsizeA {x : JValue} {l : List JValue}
    (h : x ∈ l) : jsize x < lsizeA l := by
  induction l with
  | nil => cases h
  | cons y l ih =>
    rcases List.mem_cons.mp h with h | h
    · subst h; simp [lsizeA]; omega
    · have := ih h; simp [lsizeA]; omega

/-- The fixed JSON-type-to-bsonType table `TYPE_MAPPING` of src/lib.ts
(lines 1-10). -/
def TYPE_MAPPING : List (String × String) :=
  [("string", "string"), ("number", "double"), ("integer", "int"), ("boolean", "bool"),
   ("array", "array"), ("object", "object"), ("null", "null")]

/-- Lookup in a string-to-string record. -/
def lookupStr : List (String × String) → String → Option String
  | [], _ => none
  | (k, v) :: rest, key => if k == key then some v else lookupStr rest key

/-- The denylist `UNSUPPORTED_KEYWORDS` of src/lib.ts (lines 12-22): keywords
stripped when converting to a MongoDB schema. -/
def UNSUPPORTED_KEYWORDS : List String :=
  ["title", "description", "examples", "$schema", "default", "format",
   "additionalProperties", "__mongoType"]

/-- The copy-loop skip test of src/lib.ts line 63:
`key === 'type' || UNSUPPORTED_KEYWORDS.has(key)`. -/
def skipKey (k : String) : Bool :=
  k == "type" || UNSUPPORTED_KEYWORDS.contains k

/-- One element of `schema.type.map(type => TYPE_MAPPING[type] || type)`
(src/lib.ts line 55): a string is looked up in the table and passed through
verbatim on a miss; a non-string element misses the table and is returned
unchanged. -/
def mapTypeElem : JValue → JValue
  | .str t => .str ((lookupStr TYPE_MAPPING t).getD t)
  | v => v

/-- The `bsonType` produced by step 2 for a given `type` value: elementwise
mapping for an array, single mapping otherwise (src/lib.ts lines 54-58). -/
def jsMapTypeVal : JValue → JValue
  | .arr xs => .arr (xs.map mapTypeElem)
  | t => mapTypeElem t

/-- Step 1 of `convertJsonSchemaToMongoSchema` (src/lib.ts lines 33-50): if
`schema.__mongoType` is truthy, switch on it; the cases 'date' and 'objectId'
set `bsonType` to themselves, any other string value is copied verbatim for
extensibility, and a non-string value only triggers `console.warn` (modelled
as a no-op on the result). -/
def applyHintL (es r : List (String × JValue)) : List (String × JValue) :=
  match jlookup es "__mongoType" with
  | some hint =>
    if truthy hint then
      match hint with
      | .str "date" => jsSet r "bsonType" (.str "date")
      | .str "objectId" => jsSet r "bsonType" (.str "objectId")
      | .str s => jsSet r "bsonType" (.str s)
      | _ => r
    else r
  | none => r

/-- Step 2 of `convertJsonSchemaToMongoSchema` (src/lib.ts lines 52-59):
`if (schema.type && !result.bsonType)`, then the elementwise or single
mapping through `TYPE_MAPPING` with verbatim pass-through on a miss. -/
def applyTypeL (es r : List (String × JValue)) : List (String × JValue) :=
  match jlookup es "type" with
  | some tv =>
    if truthy tv && !truthyO (jlookup r "bsonType") then
      match tv with
      | .arr xs => jsSet r "bsonType" (.arr (xs.map mapTypeElem))
      | t => jsSet r "bsonType" (mapTypeElem t)
    else r
  | none => r

mutual
/-- Shallow embedding of `convertJsonSchemaToMongoSchema` (src/lib.ts
lines 30-90).  The result object is built by the hint step, the type step and
then the copy loop over `Object.entries(schema)`. -/
def convertJsonSchemaToMongoSchema (v : JValue) : JValue :=
  .obj (copyLoop (jsEntries v) (applyTypeL (jsEntries v) (applyHintL (jsEntries v) [])))
termination_by jsize v
decreasing_by
  all_goals (have h := lsizeO_jsEntries_lt v; omega)

/-- The copy loop of src/lib.ts lines 62-87: each entry whose key is neither
`type` nor denylisted is written to the result, with the structural keys
(`properties`, `items`, `allOf`/`anyOf`/`oneOf`, `not`) transformed
recursively and every other value copied as-is. -/
def copyLoop : List (String × JValue) → List (String × JValue) → List (String × JValue)
  | [], r => r
  | (k, v) :: rest, r =>
    if skipKey k then copyLoop rest r
    else copyLoop rest (jsSet r k (transformEntry k v))
termination_by es _ => lsizeO es
decreasing_by
  all_goals (simp only [lsizeO, lsizeA, jsize]; omega)

/-- The per-key transformation of the copy loop (src/lib.ts lines 67-86):
`properties` with an object-like value is rebuilt from its object-like
members, `items` and `not` with object-like values are converted recursively,
`allOf`/`anyOf`/`oneOf` arrays are mapped elementwise, and every other
key/value combination is copied as-is. -/
def transformEntry (k : String) (v : JValue) : JValue :=
  if k == "properties" && isObjLike v then .obj (propsLoop (jsEntries v) [])
  else if k == "items" && isObjLike v then convertJsonSchemaToMongoSchema v
  else if k == "allOf" || k == "anyOf" || k == "oneOf" then
    match v with
    | .arr xs => .arr (convertElems xs)
    | _ => v
  else if k == "not" && isObjLike v then convertJsonSchemaToMongoSchema v
  else v
termination_by jsize v + 1
decreasing_by
  all_goals first
    | (simp only [lsizeO, lsizeA, jsize]; omega)
    | (have h := lsizeO_jsEntries_lt v; omega)

/-- The `properties` sub-loop of src/lib.ts lines 68-74: entries whose value
is object-like are converted recursively; entries with any other value are
silently dropped. -/
def propsLoop : List (String × JValue) → List (String × JValue) → List (String × JValue)
  | [], acc => acc
  | (pk, pv) :: rest, acc =>
    propsLoop rest
      (if isObjLike pv then jsSet acc pk (convertJsonSchemaToMongoSchema pv) else acc)
termination_by es _ => lsizeO es
decreasing_by
  all_goals (simp only [lsizeO, lsizeA, jsize]; omega)

/-- Elementwise conversion of an `allOf`/`anyOf`/`oneOf` array (src/lib.ts
lines 77-80): object-like items are converted, other items pass through. -/
def convertElems : List JValue → List JValue
  | [] => []
  | e :: rest => (if isObjLike e then convertJsonSchemaToMongoSchema e else e) :: convertElems rest
termination_by es => lsizeA es
decreasing_by
  all_goals (simp only [lsizeO, lsizeA, jsize]; omega)
end

/-! ## Custom-type registry (src/registry/MongoTypeRegistry.ts) -/

/-- An opaque validator reference.  JavaScript compares validators with `===`
(object identity); identity is modelled by an allocation id, with `body`
standing for the structural content (the validation logic), so that
structurally identical but separately allocated validators are distinct. -/
structure Validator where
  id : Nat
  body : String
deriving DecidableEq

/-- Entry of the registry: the validator schema and the target BSON type
(src/registry/MongoTypeRegistry.ts lines 6-12). -/
structure MongoTypeInfo where
  schema : Validator
  bsonType : String
deriving DecidableEq

/-- The registry: a JavaScript `Map` from type names to `MongoTypeInfo`,
modelled as an insertion-ordered association list with unique keys. -/
structure MongoTypeRegistry where
  _types : List (String × MongoTypeInfo)
deriving DecidableEq

/-- JavaScript `Map.set`: overwrite the value of an existing key in place
(keeping its insertion position) or append a new binding. -/
def mapSet : List (String × MongoTypeInfo) → String → MongoTypeInfo →
    List (String × MongoTypeInfo)
  | [], k, v => [(k, v)]
  | (k', v') :: rest, k, v =>
    if k' == k then (k, v) :: rest else (k', v') :: mapSet rest k v

/-- `register` (MongoTypeRegistry.ts lines 48-51). -/
def MongoTypeRegistry.register (r : MongoTypeRegistry) (name : String)
    (info : MongoTypeInfo) : MongoTypeRegistry :=
  ⟨mapSet r._types name info⟩

/-- `get` (MongoTypeRegistry.ts lines 59-62): `Map.get`. -/
def MongoTypeRegistry.get (r : MongoTypeRegistry) (name : String) : Option MongoTypeInfo :=
  (r._types.find? (fun p => p.1 == name)).map (fun p => p.2)

/-- `entries` (MongoTypeRegistry.ts lines 69-71). -/
def MongoTypeRegistry.entries (r : MongoTypeRegistry) : List (String × MongoTypeInfo) :=
  r._types

/-- `has` (MongoTypeRegistry.ts lines 79-81). -/
def MongoTypeRegistry.has (r : MongoTypeRegistry) (name : String) : Bool :=
  (r._types.find? (fun p => p.1 == name)).isSome

/-- `size` (MongoTypeRegistry.ts lines 88-90). -/
def MongoTypeRegistry.size (r : MongoTypeRegistry) : Nat :=
  r._types.length

/-- The linear scan of `findByValidator` (MongoTypeRegistry.ts lines 98-105):
compare each stored validator against the argument by identity
(`typeInfo.schema === validator`); the first match in insertion order wins. -/
def findTypeByValidator : List (String × MongoTypeInfo) → Validator → Option String
  | [], _ => none
  | (name, info) :: rest, v =>
    if info.schema.id == v.id then some name else findTypeByValidator rest v

/-- `findByValidator` (MongoTypeRegistry.ts lines 98-105). -/
def MongoTypeRegistry.findByValidator (r : MongoTypeRegistry) (v : Validator) : Option String :=
  findTypeByValidator r._types v

/-- `clear` (MongoTypeRegistry.ts lines 110-112). -/
def MongoTypeRegistry.clear (_ : MongoTypeRegistry) : MongoTypeRegistry :=
  ⟨[]⟩

/-! ## Zod adapter (src/adapters/zod.ts)

The adapter dispatches on the string tag `def.type` of each node's internal
def, reads `def.fn` in the custom branch and calls `z.toJSONSchema` in the
fallback branch — all of which exist only in the Zod v4 def shape, so the
embedding models the v4 def shape throughout. -/

/-- A JavaScript function value as probed by the custom-type strategies: its
`name` property and its source text (`toString()`). -/
structure ZodFunc where
  name : String
  src : String
deriving DecidableEq

/-- A loosely-typed entry of a node's `def.checks` list.  Across source-library
versions an integer constraint may be represented by a check whose `kind` is
'int' (the shape probed by src/adapters/zod.ts line 146) or by a
directly-exposed boolean flag `isInt` on the check (the shape probed by an
earlier revision of the same file); both possible fields are carried here. -/
structure ZodCheck where
  kind : Option String
  value : Option Int
  regexSource : Option String
  isInt : Bool
deriving DecidableEq

/-- A Zod schema node, one constructor per `def.type` tag handled by
`processZodType` (src/adapters/zod.ts lines 85-301); `unknown` stands for any
unhandled tag, carrying the result of `z.toJSONSchema` when that call
succeeds and `none` when it throws. -/
inductive ZodType where
  | date : ZodType
  | custom : Option ZodFunc → Option String → Option ZodFunc → ZodType
  | string : List ZodCheck → ZodType
  | number : List ZodCheck → ZodType
  | boolean : ZodType
  | array : ZodType → List ZodCheck → ZodType
  | object : List (String × ZodType) → ZodType
  | enum : List JValue → ZodType
  | literal : Option JValue → ZodType
  | union : List ZodType → ZodType
  | intersection : ZodType → ZodType → ZodType
  | optional : ZodType → ZodType
  | defaultVal : ZodType → ZodType
  | nullable : ZodType → ZodType
  | null : ZodType
  | unknown : String → Option JValue → ZodType

/-- Reading `def.typeName` off a node's internal def.  The adapter targets the
Zod v4 def shape (see the section comment), and v4 defs carry the kind tag in
`def.type` without the v3 `typeName` field, so the read yields `undefined` on
every node — including optional wrappers, whose v4 def is
`{type: 'optional', innerType}`. -/
def ZodType.defTypeName : ZodType → Option String := fun _ => none

/-- Truthiness of a possibly-absent string property. -/
def truthyS : Option String → Bool
  | some s => s != ""
  | none => false

/-- JavaScript `haystack.includes(needle)`. -/
def strContains (hay pat : String) : Bool :=
  pat == "" || (hay.splitOn pat).length != 1

/-- `findCustomTypeName` (src/adapters/zod.ts lines 307-344): the four
name-resolution strategies, first match wins.  Strategy 1 reads `def.fn.name`,
strategy 2 the `__customTypeName` property, strategy 3 scans the configured
names for one occurring in the function source, strategy 4 reads the legacy
`def.check.name`. -/
def findCustomTypeName (fn : Option ZodFunc) (customTypeName : Option String)
    (check : Option ZodFunc) (customTypes : List (String × String)) : Option String :=
  match (match fn with
         | some f => if f.name != "" && truthyS (lookupStr customTypes f.name)
                     then some f.name else none
         | none => none) with
  | some n => some n
  | none =>
    match (match customTypeName with
           | some cn => if cn != "" && truthyS (lookupStr customTypes cn)
                        then some cn else none
           | none => none) with
    | some n => some n
    | none =>
      match (match fn with
             | some f => (customTypes.find? (fun p => strContains f.src p.1)).map (fun p => p.1)
             | none => none) with
      | some n => some n
      | none =>
        match check with
        | some c => if c.name != "" && truthyS (lookupStr customTypes c.name)
                    then some c.name else none
        | none => none

/-- A present numeric property or `undefined`. -/
def optNumVal : Option Int → JValue
  | some n => .num n
  | none => .undefined

/-- A present string property or `undefined`. -/
def optStrVal : Option String → JValue
  | some s => .str s
  | none => .undefined

/-- One iteration of the string-constraint loop (src/adapters/zod.ts
lines 113-132). -/
def stringCheckStep (c : ZodCheck) (r : List (String × JValue)) : List (String × JValue) :=
  match c.kind with
  | some "min" => jsSet r "minLength" (optNumVal c.value)
  | some "max" => jsSet r "maxLength" (optNumVal c.value)
  | some "length" => jsSet (jsSet r "minLength" (optNumVal c.value)) "maxLength" (optNumVal c.value)
  | some "regex" => jsSet r "pattern" (optStrVal c.regexSource)
  | _ => r

/-- The string-constraint loop. -/
def stringChecksLoop : List ZodCheck → List (String × JValue) → List (String × JValue)
  | [], r => r
  | c :: rest, r => stringChecksLoop rest (stringCheckStep c r)

/-- One iteration of the number-constraint loop (src/adapters/zod.ts
lines 142-157): a check of kind 'int' upgrades `type` to 'integer'; checks of
kind 'min'/'max' with a defined value inside the safe-integer range set
`minimum`/`maximum`.  The `isInt` flag of a check is not consulted. -/
def numberCheckStep (c : ZodCheck) (r : List (String × JValue)) : List (String × JValue) :=
  let r1 := if c.kind == some "int" then jsSet r "type" (.str "integer") else r
  let r2 :=
    match c.kind, c.value with
    | some "min", some n =>
      if n > -9007199254740991 then jsSet r1 "minimum" (.num n) else r1
    | _, _ => r1
  match c.kind, c.value with
  | some "max", some n =>
    if n < 9007199254740991 then jsSet r2 "maximum" (.num n) else r2
  | _, _ => r2

/-- The number-constraint loop. -/
def numberChecksLoop : List ZodCheck → List (String × JValue) → List (String × JValue)
  | [], r => r
  | c :: rest, r => numberChecksLoop rest (numberCheckStep c r)

/-- One iteration of the array-constraint loop (src/adapters/zod.ts
lines 176-192). -/
def arrayCheckStep (c : ZodCheck) (r : List (String × JValue)) : List (String × JValue) :=
  match c.kind with
  | some "min" => jsSet r "minItems" (optNumVal c.value)
  | some "max" => jsSet r "maxItems" (optNumVal c.value)
  | some "length" => jsSet (jsSet r "minItems" (optNumVal c.value)) "maxItems" (optNumVal c.value)
  | _ => r

/-- The array-constraint loop. -/
def arrayChecksLoop : List ZodCheck → List (String × JValue) → List (String × JValue)
  | [], r => r
  | c :: rest, r => arrayChecksLoop rest (arrayCheckStep c r)

/-- The required-key computation of the object branch (src/adapters/zod.ts
lines 204-213): a key is pushed unless its field's def has
`typeName === 'ZodOptional'` (the Zod v3 tag).  Every Zod schema value
carries a def, so the `!fieldDef` disjunct never fires. -/
def requiredKeys : List (String × ZodType) → List String
  | [] => []
  | (k, t) :: rest =>
    if ZodType.defTypeName t ≠ some "ZodOptional" then k :: requiredKeys rest
    else requiredKeys rest

/-- The run-time `typeof` of a possibly-absent value, for the literal branch
(`type: typeof value`). -/
def jsTypeof : Option JValue → String
  | none => "undefined"
  | some .undefined => "undefined"
  | some .null => "object"
  | some (.bool _) => "boolean"
  | some (.num _) => "number"
  | some (.str _) => "string"
  | some (.arr _) => "object"
  | some (.obj _) => "object"

mutual
/-- Shallow embedding of `processZodType` (src/adapters/zod.ts lines 85-301).
Notes on individual branches:

* custom: when `customTypes` is supplied and a name resolves, emit the string
  placeholder with the configured `__mongoType`; otherwise the chain falls
  through every typed branch and reaches the generic fallback, and
  `z.toJSONSchema` throws on custom validators, so the result is the
  permissive empty schema.
* array: the source computes `items: processZodType(def.type || def.element)`;
  since the branch was selected by `def.type === 'array'`, `def.type` is the
  truthy tag string 'array', so the recursive call receives a raw string
  rather than a schema, dispatches nowhere, and its fallback
  `z.toJSONSchema('array')` throws — yielding the permissive empty schema as
  `items`.
* object: see `requiredKeys`; `required` is attached only when non-empty.
* literal: the Zod v4 literal def stores `values`, not `value`, so `def.value`
  is modelled as a possibly-absent property. -/
def processZodType : ZodType → Option (List (String × String)) → JValue
  | .date, _ =>
    .obj [("type", .str "string"), ("__mongoType", .str "date")]
  | .custom fn ctn chk, customTypes =>
    match customTypes with
    | some cts =>
      match findCustomTypeName fn ctn chk cts with
      | some name =>
        .obj [("type", .str "string"), ("__mongoType", optStrVal (lookupStr cts name))]
      | none => .obj []
    | none => .obj []
  | .string checks, _ =>
    .obj (stringChecksLoop checks [("type", .str "string")])
  | .number checks, _ =>
    .obj (numberChecksLoop checks [("type", .str "number")])
  | .boolean, _ =>
    .obj [("type", .str "boolean")]
  | .array _ checks, _ =>
    .obj (arrayChecksLoop checks [("type", .str "array"), ("items", .obj [])])
  | .object shape, customTypes =>
    let props := processShape shape customTypes
    let req := requiredKeys shape
    if req.length > 0 then
      .obj [("type", .str "object"), ("properties", .obj props),
            ("required", .arr (req.map JValue.str))]
    else
      .obj [("type", .str "object"), ("properties", .obj props)]
  | .enum values, _ =>
    .obj [("type", .str "string"), ("enum", .arr values)]
  | .literal value, _ =>
    .obj [("type", .str (jsTypeof value)), ("const", value.getD .undefined)]
  | .union options, customTypes =>
    .obj [("anyOf", .arr (processOptions options customTypes))]
  | .intersection l r, customTypes =>
    .obj [("allOf", .arr [processZodType l customTypes, processZodType r customTypes])]
  | .optional inner, customTypes => processZodType inner customTypes
  | .defaultVal inner, customTypes => processZodType inner customTypes
  | .nullable inner, customTypes =>
    .obj [("anyOf", .arr [processZodType inner customTypes, .obj [("type", .str "null")]])]
  | .null, _ =>
    .obj [("type", .str "null")]
  | .unknown _ fallbackJson, _ =>
    match fallbackJson with
    | some j => j
    | none => .obj []

/-- The field loop of the object branch, building `properties`. -/
def processShape : List (String × ZodType) → Option (List (String × String)) →
    List (String × JValue)
  | [], _ => []
  | (k, t) :: rest, customTypes =>
    (k, processZodType t customTypes) :: processShape rest customTypes

/-- The option loop of the union branch. -/
def processOptions : List ZodType → Option (List (String × String)) → List JValue
  | [], _ => []
  | t :: rest, customTypes =>
    processZodType t customTypes :: processOptions rest customTypes
end

/-- The options record of the adapter entry points (src/adapters/zod.ts
lines 22-24). -/
structure ZodToMongoOptions where
  customTypes : Option (List (String × String))

/-- `zodToCompatibleJsonSchema` (src/adapters/zod.ts lines 51-56):
`processZodType(zodSchema, options?.customTypes)`. -/
def zodToCompatibleJsonSchema (t : ZodType) (options : Option ZodToMongoOptions) : JValue :=
  processZodType t
    (match options with
     | some o => o.customTypes
     | none => none)

/-- `zodSchema(...).toMongoSchema()` (src/adapters/zod.ts lines 66-80): the
adapter followed by the converter. -/
def zodSchemaToMongoSchema (t : ZodType) (options : Option ZodToMongoOptions) : JValue :=
  convertJsonSchemaToMongoSchema (zodToCompatibleJsonSchema t options)

/-- Modelled from the spec: the registry-based resolution of custom validator
nodes in the adapter.  The adapter source under src/ implements only the
name-based `customTypes` option, while the registry-based `mongoTypes` option
— exercised by test/mongo-types.test.ts and described in the README — is not
present under src/; this definition follows §4.2 of the specification:
"opaque/custom/refinement validator: if a registry is supplied, attempt
identity-based resolution (findByValidator); on success emit
type string with the resolved storage type as hint.  On failure (no registry,
or no match), fall through to the generic unrepresentable path."  A custom
validator has no generic JSON-Schema fallback (the library conversion throws
on custom types), so the unrepresentable path degrades to the permissive
empty schema. -/
def adaptCustomWithRegistry (v : Validator) (reg : Option MongoTypeRegistry) : JValue :=
  match reg with
  | some r =>
    match r.findByValidator v with
    | some name =>
      match r.get name with
      | some info => .obj [("type", .str "string"), ("__mongoType", .str info.bsonType)]
      | none => .obj []
    | none => .obj []
  | none => .obj []

/-! ## Association-list infrastructure -/

/-- Well-formedness of a JavaScript object: its keys are pairwise distinct. -/
abbrev nodupKeys (l : List (String × JValue)) : Prop :=
  (l.map Prod.fst).Nodup

theorem jlookup_eq_none_of_not_mem {l : List (String × JValue)} {k : String}
    (h : k ∉ l.map Prod.fst) : jlookup l k = none := by
  induction l with
  | nil => rfl
  | cons p rest ih =>
    obtain ⟨k', v'⟩ := p
    simp only [List.map_cons, List.mem_cons, not_or] at h
    simp only [jlookup, beq_iff_eq]
    rw [if_neg (fun hh => h.1 hh.symm)]
    exact ih h.2

theorem jlookup_jsSet_self (l : List (String × JValue)) (k : String) (v : JValue) :
    jlookup (jsSet l k v) k = some v := by
  induction l with
  | nil => simp [jsSet, jlookup]
  | cons p rest ih =>
    obtain ⟨k', v'⟩ := p
    by_cases h : k' = k
    · subst h; simp [jsSet, jlookup]
    · simp only [jsSet, jlookup, beq_iff_eq]
      rw [if_neg h]
      simp only [jlookup, beq_iff_eq]
      rw [if_neg h]
      exact ih

theorem jlookup_jsSet_ne (l : List (String × JValue)) {k k' : String} (h : k' ≠ k)
    (v : JValue) : jlookup (jsSet l k v) k' = jlookup l k' := by
  induction l with
  | nil =>
    simp only [jsSet, jlookup, beq_iff_eq]
    rw [if_neg (fun hh => h hh.symm)]
  | cons p rest ih =>
    obtain ⟨k0, v0⟩ := p
    by_cases h0 : k0 = k
    · subst h0
      simp only [jsSet, beq_self_eq_true, if_true]
      simp only [jlookup, beq_iff_eq]
      rw [if_neg (fun hh => h hh.symm), if_neg (fun hh => h hh.symm)]
    · simp only [jsSet, beq_iff_eq]
      rw [if_neg h0]
      simp only [jlookup, beq_iff_eq]
      by_cases hk : k0 = k'
      · rw [if_pos hk, if_pos hk]
      · rw [if_neg hk, if_neg hk]
        exact ih

theorem mem_jsSet {p : String × JValue} {l : List (String × JValue)} {k : String} {v : JValue}
    (h : p ∈ jsSet l k v) : p ∈ l ∨ p = (k, v) := by
  induction l with
  | nil => simp only [jsSet] at h; simp at h; right; exact h
  | cons q rest ih =>
    cases q with
    | mk k0 v0 =>
      simp only [jsSet] at h
      by_cases h0 : k0 = k
      · rw [if_pos (by simpa using h0)] at h
        rcases List.mem_cons.mp h with h | h
        · right; exact h
        · exact Or.inl (List.mem_cons_of_mem _ h)
      · rw [if_neg (by simpa using h0)] at h
        rcases List.mem_cons.mp h with h | h
        · subst h; exact Or.inl (List.mem_cons_self _ _)
        · rcases ih h with h1 | h1
          · exact Or.inl (List.mem_cons_of_mem _ h1)
          · exact Or.inr h1

theorem keys_jsSet (l : List (String × JValue)) (k : String) (v : JValue) :
    (jsSet l k v).map Prod.fst =
      if k ∈ l.map Prod.fst then l.map Prod.fst else l.map Prod.fst ++ [k] := by
  induction l with
  | nil => simp [jsSet]
  | cons p rest ih =>
    obtain ⟨k0, v0⟩ := p
    by_cases h0 : k0 = k
    · subst h0
      simp [jsSet]
    · simp only [jsSet, beq_iff_eq]
      rw [if_neg h0]
      simp only [List.map_cons, List.mem_cons]
      rw [ih]
      by_cases hm : k ∈ rest.map Prod.fst
      · rw [if_pos hm, if_pos (Or.inr hm)]
      · rw [if_neg hm, if_neg (by rintro (h | h); exact h0 h.symm; exact hm h)]
        simp

theorem nodupKeys_jsSet {l : List (String × JValue)} (h : nodupKeys l) (k : String)
    (v : JValue) : nodupKeys (jsSet l k v) := by
  unfold nodupKeys at *
  rw [keys_jsSet]
  by_cases hm : k ∈ l.map Prod.fst
  · rw [if_pos hm]; exact h
  · rw [if_neg hm]
    rw [List.nodup_append]
    refine ⟨h, List.nodup_singleton _, ?_⟩
    intro a ha hb
    simp only [List.mem_singleton] at hb
    subst hb
    exact hm ha

theorem jsSet_append {l : List (String × JValue)} {k : String}
    (h : jlookup l k = none) (v : JValue) : jsSet l k v = l ++ [(k, v)] := by
  induction l with
  | nil => rfl
  | cons p rest ih =>
    obtain ⟨k0, v0⟩ := p
    simp only [jlookup] at h
    by_cases h0 : k0 = k
    · rw [if_pos (by simpa using h0)] at h; cases h
    · rw [if_neg (by simpa using h0)] at h
      simp only [jsSet, beq_iff_eq]
      rw [if_neg h0, ih h]
      simp

theorem jlookup_append_none {l1 l2 : List (String × JValue)} {k : String}
    (h1 : jlookup l1 k = none) (h2 : jlookup l2 k = none) :
    jlookup (l1 ++ l2) k = none := by
  induction l1 with
  | nil => simpa using h2
  | cons p rest ih =>
    obtain ⟨k0, v0⟩ := p
    simp only [jlookup] at h1 ⊢
    by_cases h0 : k0 = k
    · rw [if_pos (by simpa using h0)] at h1; cases h1
    · rw [if_neg (by simpa using h0)] at h1 ⊢
      exact ih h1

/-! ## Copy-loop characterization -/

theorem copyLoop_lookup_none {k : String} :
    ∀ (es acc : List (String × JValue)), jlookup es k = none →
      jlookup (copyLoop es acc) k = jlookup acc k := by
  intro es
  induction es with
  | nil => intro acc _; simp [copyLoop]
  | cons p rest ih =>
    intro acc h
    obtain ⟨k0, v0⟩ := p
    simp only [jlookup] at h
    by_cases h0 : k0 = k
    · rw [if_pos (by simpa using h0)] at h; cases h
    · rw [if_neg (by simpa using h0)] at h
      simp only [copyLoop]
      by_cases hs : skipKey k0
      · rw [if_pos hs]; exact ih acc h
      · rw [if_neg hs, ih _ h, jlookup_jsSet_ne _ (fun hh => h0 hh.symm)]

theorem copyLoop_lookup_some {k : String} {v : JValue} :
    ∀ (es acc : List (String × JValue)), nodupKeys es → jlookup es k = some v →
      jlookup (copyLoop es acc) k =
        if skipKey k then jlookup acc k else some (transformEntry k v) := by
  intro es
  induction es with
  | nil => intro acc _ h; cases h
  | cons p rest ih =>
    intro acc hnd h
    obtain ⟨k0, v0⟩ := p
    simp only [nodupKeys, List.map_cons] at hnd
    have hnd' : nodupKeys rest := (List.nodup_cons.mp hnd).2
    have hk0 : k0 ∉ rest.map Prod.fst := (List.nodup_cons.mp hnd).1
    simp only [jlookup] at h
    by_cases h0 : k0 = k
    · subst h0
      rw [if_pos (by simp)] at h
      injection h with h
      subst h
      have hres : jlookup rest k0 = none := jlookup_eq_none_of_not_mem hk0
      simp only [copyLoop]
      by_cases hs : skipKey k0
      · rw [if_pos hs, copyLoop_lookup_none _ _ hres, if_pos hs]
      · rw [if_neg hs, copyLoop_lookup_none _ _ hres, if_neg hs, jlookup_jsSet_self]
    · rw [if_neg (by simpa using h0)] at h
      simp only [copyLoop]
      by_cases hs : skipKey k0
      · rw [if_pos hs]; exact ih acc hnd' h
      · rw [if_neg hs, ih _ hnd' h, jlookup_jsSet_ne _ (fun hh => h0 hh.symm)]

theorem copyLoop_lookup_skip (k : String) (hk : skipKey k = true) :
    ∀ (es acc : List (String × JValue)), jlookup (copyLoop es acc) k = jlookup acc k := by
  intro es
  induction es with
  | nil => intro acc; simp [copyLoop]
  | cons p rest ih =>
    intro acc
    obtain ⟨k0, v0⟩ := p
    simp only [copyLoop]
    by_cases hs : skipKey k0
    · rw [if_pos hs]; exact ih acc
    · rw [if_neg hs]
      have hne : k ≠ k0 := by
        intro hh; subst hh; rw [hk] at hs; exact hs rfl
      rw [ih _, jlookup_jsSet_ne _ hne]

/-! ## Characterizations of the hint step and the type step -/

theorem applyHintL_none {es r : List (String × JValue)}
    (h : jlookup es "__mongoType" = none) : applyHintL es r = r := by
  simp [applyHintL, h]

theorem applyHintL_falsy {es r : List (String × JValue)} {hv : JValue}
    (h : jlookup es "__mongoType" = some hv) (ht : truthy hv = false) :
    applyHintL es r = r := by
  simp [applyHintL, h, ht]

theorem applyHintL_str {es r : List (String × JValue)} {s : String}
    (h : jlookup es "__mongoType" = some (.str s)) (hs : s ≠ "") :
    applyHintL es r = jsSet r "bsonType" (.str s) := by
  simp only [applyHintL, h]
  rw [if_pos (by simp [truthy, hs])]
  split
  · next heq => injection heq with heq; rw [heq]
  · next heq => injection heq with heq; rw [heq]
  · next s1 heq => injection heq with heq; rw [heq]
  · next hne => exact absurd rfl (hne s)

theorem applyHintL_nonstr {es r : List (String × JValue)} {hv : JValue}
    (h : jlookup es "__mongoType" = some hv) (hns : ∀ s, hv ≠ .str s) :
    applyHintL es r = r := by
  cases hv with
  | str s => exact absurd rfl (hns s)
  | undefined => simp [applyHintL, h, truthy]
  | null => simp [applyHintL, h, truthy]
  | bool b => simp [applyHintL, h, truthy]
  | num n => simp [applyHintL, h, truthy]
  | arr xs => simp [applyHintL, h, truthy]
  | obj kvs => simp [applyHintL, h, truthy]

theorem applyTypeL_none {es r : List (String × JValue)}
    (h : jlookup es "type" = none) : applyTypeL es r = r := by
  simp [applyTypeL, h]

theorem applyTypeL_falsy {es r : List (String × JValue)} {tv : JValue}
    (h : jlookup es "type" = some tv) (ht : truthy tv = false) :
    applyTypeL es r = r := by
  simp [applyTypeL, h, ht]

theorem applyTypeL_bson {es r : List (String × JValue)} {tv : JValue}
    (h : jlookup es "type" = some tv) (hb : truthyO (jlookup r "bsonType") = true) :
    applyTypeL es r = r := by
  simp [applyTypeL, h, hb]

theorem applyTypeL_set (es r : List (String × JValue)) {tv : JValue}
    (h : jlookup es "type" = some tv) (ht : truthy tv = true)
    (hb : truthyO (jlookup r "bsonType") = false) :
    applyTypeL es r = jsSet r "bsonType" (jsMapTypeVal tv) := by
  simp only [applyTypeL, h]
  rw [if_pos (by simp [ht, hb])]
  cases tv <;> simp [jsMapTypeVal, mapTypeElem]

theorem applyHintL_lookup_ne {es r : List (String × JValue)} (k : String)
    (hk : k ≠ "bsonType") : jlookup (applyHintL es r) k = jlookup r k := by
  unfold applyHintL
  split
  · split
    · split <;> first | rfl | exact jlookup_jsSet_ne r hk _
    · rfl
  · rfl

theorem applyTypeL_lookup_ne {es r : List (String × JValue)} (k : String)
    (hk : k ≠ "bsonType") : jlookup (applyTypeL es r) k = jlookup r k := by
  unfold applyTypeL
  split
  · split
    · split <;> exact jlookup_jsSet_ne r hk _
    · rfl
  · rfl

/-! ## Characterizations of the per-key transformation -/

/-- The structural keys of the copy loop, whose values are rebuilt rather than
copied verbatim. -/
def structuralKey (k : String) : Bool :=
  k == "properties" || k == "items" || k == "allOf" || k == "anyOf" || k == "oneOf" || k == "not"

theorem transformEntry_props {v : JValue} (hv : isObjLike v = true) :
    transformEntry "properties" v = .obj (propsLoop (jsEntries v) []) := by
  rw [transformEntry.eq_def]
  rw [if_pos (by simp [hv])]

theorem transformEntry_items {v : JValue} (hv : isObjLike v = true) :
    transformEntry "items" v = convertJsonSchemaToMongoSchema v := by
  rw [transformEntry.eq_def]
  rw [if_neg (by simp), if_pos (by simp [hv])]

theorem transformEntry_not {v : JValue} (hv : isObjLike v = true) :
    transformEntry "not" v = convertJsonSchemaToMongoSchema v := by
  rw [transformEntry.eq_def]
  rw [if_neg (by simp), if_neg (by simp), if_neg (by simp), if_pos (by simp [hv])]

theorem transformEntry_comp {k : String} (hk : k = "allOf" ∨ k = "anyOf" ∨ k = "oneOf")
    (xs : List JValue) : transformEntry k (.arr xs) = .arr (convertElems xs) := by
  rcases hk with rfl | rfl | rfl <;>
    (rw [transformEntry.eq_def]; simp)

theorem transformEntry_comp_nonarr {k v} (hk : k = "allOf" ∨ k = "anyOf" ∨ k = "oneOf")
    (hv : ∀ xs, v ≠ JValue.arr xs) : transformEntry k v = v := by
  rcases hk with rfl | rfl | rfl <;>
    (cases v with
     | arr xs => exact absurd rfl (hv xs)
     | undefined => rw [transformEntry.eq_def]; simp
     | null => rw [transformEntry.eq_def]; simp
     | bool b => rw [transformEntry.eq_def]; simp
     | num n => rw [transformEntry.eq_def]; simp
     | str s => rw [transformEntry.eq_def]; simp
     | obj kvs => rw [transformEntry.eq_def]; simp)

theorem transformEntry_other {k : String} (h : structuralKey k = false) (v : JValue) :
    transformEntry k v = v := by
  unfold structuralKey at h
  rw [Bool.or_eq_false_iff, Bool.or_eq_false_iff, Bool.or_eq_false_iff,
      Bool.or_eq_false_iff, Bool.or_eq_false_iff] at h
  obtain ⟨⟨⟨⟨⟨h1, h2⟩, h3⟩, h4⟩, h5⟩, h6⟩ := h
  rw [transformEntry.eq_def]
  simp [h1, h2, h3, h4, h5, h6]

theorem transformEntry_nonObj {k : String} {v : JValue} (h : isObjLike v = false) :
    transformEntry k v = v := by
  cases v with
  | arr xs => simp [isObjLike] at h
  | undefined => rw [transformEntry.eq_def]; simp [isObjLike]
  | null => rw [transformEntry.eq_def]; simp [isObjLike]
  | bool b => rw [transformEntry.eq_def]; simp [isObjLike]
  | num n => rw [transformEntry.eq_def]; simp [isObjLike]
  | str s => rw [transformEntry.eq_def]; simp [isObjLike]
  | obj kvs => simp [isObjLike] at h

/-! ## Characterization of the properties sub-loop -/

theorem propsLoop_lookup_none {pk : String} :
    ∀ (l acc : List (String × JValue)), jlookup l pk = none →
      jlookup (propsLoop l acc) pk = jlookup acc pk := by
  intro l
  induction l with
  | nil => intro acc _; simp [propsLoop]
  | cons q rest ih =>
    intro acc h
    obtain ⟨k0, v0⟩ := q
    simp only [jlookup] at h
    by_cases h0 : k0 = pk
    · rw [if_pos (by simpa using h0)] at h; cases h
    · rw [if_neg (by simpa using h0)] at h
      simp only [propsLoop]
      rw [ih _ h]
      by_cases ho : isObjLike v0
      · rw [if_pos ho, jlookup_jsSet_ne _ (fun hh => h0 hh.symm)]
      · rw [if_neg ho]

theorem propsLoop_lookup_some {pk : String} {pv : JValue} :
    ∀ (l acc : List (String × JValue)), nodupKeys l → jlookup l pk = some pv →
      jlookup (propsLoop l acc) pk =
        if isObjLike pv then some (convertJsonSchemaToMongoSchema pv)
        else jlookup acc pk := by
  intro l
  induction l with
  | nil => intro acc _ h; cases h
  | cons q rest ih =>
    intro acc hnd h
    obtain ⟨k0, v0⟩ := q
    simp only [nodupKeys, List.map_cons] at hnd
    have hnd' : nodupKeys rest := (List.nodup_cons.mp hnd).2
    have hk0 : k0 ∉ rest.map Prod.fst := (List.nodup_cons.mp hnd).1
    simp only [jlookup] at h
    by_cases h0 : k0 = pk
    · subst h0
      rw [if_pos (by simp)] at h
      injection h with h
      subst h
      have hres : jlookup rest k0 = none := jlookup_eq_none_of_not_mem hk0
      simp only [propsLoop]
      rw [propsLoop_lookup_none _ _ hres]
      by_cases ho : isObjLike v0
      · rw [if_pos ho, if_pos ho, jlookup_jsSet_self]
      · rw [if_neg ho, if_neg ho]
    · rw [if_neg (by simpa using h0)] at h
      simp only [propsLoop]
      rw [ih _ hnd' h]
      by_cases ho : isObjLike pv
      · rw [if_pos ho, if_pos ho]
      · rw [if_neg ho, if_neg ho]
        by_cases ho0 : isObjLike v0
        · rw [if_pos ho0, jlookup_jsSet_ne _ (fun hh => h0 hh.symm)]
        · rw [if_neg ho0]

/-! ## Idempotence machinery -/

/-- Entries produced by the converter are stable: their key is never skipped
and their value is a fixed point of the per-key transformation. -/
def goodEntry (p : String × JValue) : Prop :=
  skipKey p.1 = false ∧ transformEntry p.1 p.2 = p.2

theorem convert_def (v : JValue) :
    convertJsonSchemaToMongoSchema v =
      .obj (copyLoop (jsEntries v) (applyTypeL (jsEntries v) (applyHintL (jsEntries v) []))) := by
  simp only [convertJsonSchemaToMongoSchema]

theorem isObjLike_convert (v : JValue) :
    isObjLike (convertJsonSchemaToMongoSchema v) = true := by
  rw [convert_def]; rfl

theorem goodEntry_bsonType (x : JValue) : goodEntry ("bsonType", x) :=
  ⟨by show skipKey "bsonType" = false; decide,
   by show transformEntry "bsonType" x = x; exact transformEntry_other (by decide) x⟩

theorem good_jsSet_bsonType {r : List (String × JValue)}
    (h : ∀ p ∈ r, goodEntry p) (y : JValue) :
    ∀ p ∈ jsSet r "bsonType" y, goodEntry p := by
  intro p hp
  rcases mem_jsSet hp with hp | rfl
  · exact h p hp
  · exact goodEntry_bsonType y

theorem good_applyHintL (es r : List (String × JValue))
    (h : ∀ p ∈ r, goodEntry p) : ∀ p ∈ applyHintL es r, goodEntry p := by
  unfold applyHintL
  split
  · split
    · split <;> first | exact h | exact good_jsSet_bsonType h _
    · exact h
  · exact h

theorem good_applyTypeL (es r : List (String × JValue))
    (h : ∀ p ∈ r, goodEntry p) : ∀ p ∈ applyTypeL es r, goodEntry p := by
  unfold applyTypeL
  split
  · split
    · split <;> exact good_jsSet_bsonType h _
    · exact h
  · exact h

theorem nodupKeys_applyHintL (es r : List (String × JValue))
    (h : nodupKeys r) : nodupKeys (applyHintL es r) := by
  unfold applyHintL
  split
  · split
    · split <;> first | exact h | exact nodupKeys_jsSet h _ _
    · exact h
  · exact h

theorem nodupKeys_applyTypeL (es r : List (String × JValue))
    (h : nodupKeys r) : nodupKeys (applyTypeL es r) := by
  unfold applyTypeL
  split
  · split
    · split <;> exact nodupKeys_jsSet h _ _
    · exact h
  · exact h

theorem nodupKeys_propsLoop :
    ∀ (l acc : List (String × JValue)), nodupKeys acc → nodupKeys (propsLoop l acc) := by
  intro l
  induction l with
  | nil => intro acc h; simpa [propsLoop] using h
  | cons q rest ih =>
    intro acc h
    obtain ⟨pk, pv⟩ := q
    simp only [propsLoop]
    by_cases ho : isObjLike pv
    · rw [if_pos ho]; exact ih _ (nodupKeys_jsSet h _ _)
    · rw [if_neg ho]; exact ih _ h

theorem nodupKeys_copyLoop :
    ∀ (es acc : List (String × JValue)), nodupKeys acc → nodupKeys (copyLoop es acc) := by
  intro es
  induction es with
  | nil => intro acc h; simpa [copyLoop] using h
  | cons q rest ih =>
    intro acc h
    obtain ⟨k, v⟩ := q
    simp only [copyLoop]
    by_cases hs : skipKey k
    · rw [if_pos hs]; exact ih _ h
    · rw [if_neg hs]; exact ih _ (nodupKeys_jsSet h _ _)

theorem propsLoop_val_prop (P : JValue → Prop) :
    ∀ (l acc : List (String × JValue)), (∀ p ∈ acc, P p.2) →
      (∀ p ∈ l, isObjLike p.2 = true → P (convertJsonSchemaToMongoSchema p.2)) →
      ∀ p ∈ propsLoop l acc, P p.2 := by
  intro l
  induction l with
  | nil => intro acc hacc _ p hp; exact hacc p (by simpa [propsLoop] using hp)
  | cons q rest ih =>
    intro acc hacc hl p hp
    obtain ⟨pk, pv⟩ := q
    simp only [propsLoop] at hp
    by_cases ho : isObjLike pv
    · rw [if_pos ho] at hp
      refine ih _ ?_ (fun q hq hoq => hl q (List.mem_cons_of_mem _ hq) hoq) p hp
      intro q hq
      rcases mem_jsSet hq with hq | rfl
      · exact hacc q hq
      · exact hl (pk, pv) (List.mem_cons_self _ _) ho
    · rw [if_neg ho] at hp
      exact ih _ hacc (fun q hq hoq => hl q (List.mem_cons_of_mem _ hq) hoq) p hp

theorem propsLoop_rebuild :
    ∀ (L acc : List (String × JValue)),
      (∀ p ∈ L, isObjLike p.2 = true ∧ convertJsonSchemaToMongoSchema p.2 = p.2) →
      nodupKeys L → (∀ p ∈ L, jlookup acc p.1 = none) →
      propsLoop L acc = acc ++ L := by
  intro L
  induction L with
  | nil => intro acc _ _ _; simp [propsLoop]
  | cons q rest ih =>
    intro acc hfix hnd hdisj
    obtain ⟨pk, pv⟩ := q
    have hq := hfix (pk, pv) (List.mem_cons_self _ _)
    simp only [nodupKeys, List.map_cons] at hnd
    have hnd' : nodupKeys rest := (List.nodup_cons.mp hnd).2
    have hpk : pk ∉ rest.map Prod.fst := (List.nodup_cons.mp hnd).1
    have hside : ∀ p ∈ rest, jlookup (acc ++ [(pk, pv)]) p.1 = none := by
      intro p hp
      have hne : p.1 ≠ pk := by
        intro hh
        exact hpk (hh ▸ List.mem_map_of_mem Prod.fst hp)
      refine jlookup_append_none (hdisj p (List.mem_cons_of_mem _ hp)) ?_
      simp only [jlookup, beq_iff_eq]
      rw [if_neg (fun hh => hne hh.symm)]
    simp only [propsLoop]
    rw [if_pos hq.1, hq.2, jsSet_append (hdisj (pk, pv) (List.mem_cons_self _ _)) pv]
    rw [ih (acc ++ [(pk, pv)]) (fun p hp => hfix p (List.mem_cons_of_mem _ hp)) hnd' hside]
    simp

theorem convertElems_fixed :
    ∀ (xs : List JValue),
      (∀ e ∈ xs, isObjLike e = true →
        convertJsonSchemaToMongoSchema (convertJsonSchemaToMongoSchema e) =
          convertJsonSchemaToMongoSchema e) →
      convertElems (convertElems xs) = convertElems xs := by
  intro xs
  induction xs with
  | nil => intro _; simp [convertElems]
  | cons e rest ih =>
    intro hfix
    have htail : convertElems (convertElems rest) = convertElems rest :=
      ih (fun q hq hoq => hfix q (List.mem_cons_of_mem _ hq) hoq)
    by_cases ho : isObjLike e
    · have h1 : convertElems (e :: rest) =
          convertJsonSchemaToMongoSchema e :: convertElems rest := by
        simp only [convertElems]; rw [if_pos ho]
      have h2 : convertElems (convertJsonSchemaToMongoSchema e :: convertElems rest) =
          convertJsonSchemaToMongoSchema (convertJsonSchemaToMongoSchema e) ::
            convertElems (convertElems rest) := by
        simp only [convertElems]; rw [if_pos (isObjLike_convert e)]
      rw [h1, h2, hfix e (List.mem_cons_self _ _) ho, htail]
    · have h1 : convertElems (e :: rest) = e :: convertElems rest := by
        simp only [convertElems]; rw [if_neg ho]
      have h2 : convertElems (e :: convertElems rest) =
          e :: convertElems (convertElems rest) := by
        simp only [convertElems]; rw [if_neg ho]
      rw [h1, h2, htail]

theorem transform_stable (k : String) (v : JValue)
    (IH : ∀ w, jsize w ≤ jsize v →
      convertJsonSchemaToMongoSchema (convertJsonSchemaToMongoSchema w) =
        convertJsonSchemaToMongoSchema w) :
    transformEntry k (transformEntry k v) = transformEntry k v := by
  by_cases hp : (k == "properties") = true
  · have hk : k = "properties" := by simpa using hp
    subst hk
    by_cases hv : isObjLike v = true
    · rw [transformEntry_props hv]
      rw [transformEntry_props (by rfl)]
      show JValue.obj (propsLoop (propsLoop (jsEntries v) []) []) = _
      congr 1
      have hfix : ∀ p ∈ propsLoop (jsEntries v) [],
          isObjLike p.2 = true ∧ convertJsonSchemaToMongoSchema p.2 = p.2 := by
        apply propsLoop_val_prop
          (fun w => isObjLike w = true ∧ convertJsonSchemaToMongoSchema w = w)
        · intro p hp; cases hp
        · intro p hp _
          refine ⟨isObjLike_convert _, IH p.2 ?_⟩
          have h1 := jsize_lt_of_mem_lsizeO hp
          have h2 := lsizeO_jsEntries_lt v
          omega
      have hnd : nodupKeys (propsLoop (jsEntries v) []) :=
        nodupKeys_propsLoop _ [] (by simp [nodupKeys])
      have := propsLoop_rebuild (propsLoop (jsEntries v) []) [] hfix hnd
        (fun p _ => rfl)
      simpa using this
    · have hf : isObjLike v = false := by simpa using hv
      rw [transformEntry_nonObj hf]
      exact transformEntry_nonObj hf
  · by_cases hi : (k == "items") = true
    · have hk : k = "items" := by simpa using hi
      subst hk
      by_cases hv : isObjLike v = true
      · rw [transformEntry_items hv, transformEntry_items (isObjLike_convert v)]
        exact IH v le_rfl
      · have hf : isObjLike v = false := by simpa using hv
        rw [transformEntry_nonObj hf]
        exact transformEntry_nonObj hf
    · by_cases hc : (k == "allOf" || k == "anyOf" || k == "oneOf") = true
      · have hk : k = "allOf" ∨ k = "anyOf" ∨ k = "oneOf" := by
          rcases Bool.or_eq_true_iff.mp hc with h | h
          · rcases Bool.or_eq_true_iff.mp h with h | h
            · exact Or.inl (by simpa using h)
            · exact Or.inr (Or.inl (by simpa using h))
          · exact Or.inr (Or.inr (by simpa using h))
        cases v with
        | arr xs =>
          rw [transformEntry_comp hk xs, transformEntry_comp hk (convertElems xs)]
          congr 1
          apply convertElems_fixed
          intro e he _
          apply IH
          have h1 := jsize_lt_of_mem_lsizeA he
          simp only [jsize]
          omega
        | undefined =>
          have hne : ∀ xs, JValue.undefined ≠ JValue.arr xs := fun xs hh => by cases hh
          rw [transformEntry_comp_nonarr hk hne]
          exact transformEntry_comp_nonarr hk hne
        | null =>
          have hne : ∀ xs, JValue.null ≠ JValue.arr xs := fun xs hh => by cases hh
          rw [transformEntry_comp_nonarr hk hne]
          exact transformEntry_comp_nonarr hk hne
        | bool b =>
          have hne : ∀ xs, (JValue.bool b) ≠ JValue.arr xs := fun xs hh => by cases hh
          rw [transformEntry_comp_nonarr hk hne]
          exact transformEntry_comp_nonarr hk hne
        | num n =>
          have hne : ∀ xs, (JValue.num n) ≠ JValue.arr xs := fun xs hh => by cases hh
          rw [transformEntry_comp_nonarr hk hne]
          exact transformEntry_comp_nonarr hk hne
        | str s =>
          have hne : ∀ xs, (JValue.str s) ≠ JValue.arr xs := fun xs hh => by cases hh
          rw [transformEntry_comp_nonarr hk hne]
          exact transformEntry_comp_nonarr hk hne
        | obj kvs =>
          have hne : ∀ xs, (JValue.obj kvs) ≠ JValue.arr xs := fun xs hh => by cases hh
          rw [transformEntry_comp_nonarr hk hne]
          exact transformEntry_comp_nonarr hk hne
      · by_cases hn : (k == "not") = true
        · have hk : k = "not" := by simpa using hn
          subst hk
          by_cases hv : isObjLike v = true
          · rw [transformEntry_not hv, transformEntry_not (isObjLike_convert v)]
            exact IH v le_rfl
          · have hf : isObjLike v = false := by simpa using hv
            rw [transformEntry_nonObj hf]
            exact transformEntry_nonObj hf
        · have hs : structuralKey k = false := by
            simp only [Bool.not_eq_true] at hp hi hc hn
            have hc1 := Bool.or_eq_false_iff.mp hc
            have hc2 := Bool.or_eq_false_iff.mp hc1.1
            unfold structuralKey
            rw [hp, hi, hc2.1, hc2.2, hc1.2, hn]
            rfl
          rw [transformEntry_other hs]

theorem good_copyLoop (B : Nat)
    (HIH : ∀ w, jsize w < B →
      convertJsonSchemaToMongoSchema (convertJsonSchemaToMongoSchema w) =
        convertJsonSchemaToMongoSchema w) :
    ∀ (es acc : List (String × JValue)), lsizeO es ≤ B →
      (∀ p ∈ acc, goodEntry p) → ∀ p ∈ copyLoop es acc, goodEntry p := by
  intro es
  induction es with
  | nil => intro acc _ hacc p hp; exact hacc p (by simpa [copyLoop] using hp)
  | cons q rest ih =>
    intro acc hsz hacc
    obtain ⟨k, val⟩ := q
    have hsz0 : jsize val + 2 + lsizeO rest ≤ B := by
      simpa [lsizeO] using hsz
    have hsz' : lsizeO rest ≤ B := by omega
    simp only [copyLoop]
    by_cases hs : skipKey k
    · rw [if_pos hs]; exact ih acc hsz' hacc
    · rw [if_neg hs]
      apply ih _ hsz'
      intro p hp
      rcases mem_jsSet hp with hp | rfl
      · exact hacc p hp
      · refine ⟨by simpa using hs, ?_⟩
        apply transform_stable
        intro w hw
        exact HIH w (by omega)

theorem copyLoop_rebuild :
    ∀ (L acc : List (String × JValue)), (∀ p ∈ L, goodEntry p) → nodupKeys L →
      (∀ p ∈ L, jlookup acc p.1 = none) → copyLoop L acc = acc ++ L := by
  intro L
  induction L with
  | nil => intro acc _ _ _; simp [copyLoop]
  | cons q rest ih =>
    intro acc hgood hnd hdisj
    obtain ⟨k, v⟩ := q
    have hg := hgood (k, v) (List.mem_cons_self _ _)
    simp only [nodupKeys, List.map_cons] at hnd
    have hnd' : nodupKeys rest := (List.nodup_cons.mp hnd).2
    have hk : k ∉ rest.map Prod.fst := (List.nodup_cons.mp hnd).1
    have hside : ∀ p ∈ rest, jlookup (acc ++ [(k, v)]) p.1 = none := by
      intro p hp
      have hne : p.1 ≠ k := by
        intro hh
        exact hk (hh ▸ List.mem_map_of_mem Prod.fst hp)
      refine jlookup_append_none (hdisj p (List.mem_cons_of_mem _ hp)) ?_
      simp only [jlookup, beq_iff_eq]
      rw [if_neg (fun hh => hne hh.symm)]
    simp only [copyLoop]
    rw [if_neg (by rw [hg.1]; exact Bool.false_ne_true)]
    rw [hg.2, jsSet_append (hdisj (k, v) (List.mem_cons_self _ _)) v]
    rw [ih (acc ++ [(k, v)]) (fun p hp => hgood p (List.mem_cons_of_mem _ hp)) hnd' hside]
    simp

theorem convertTwice : ∀ (n : Nat) (v : JValue), jsize v ≤ n →
    convertJsonSchemaToMongoSchema (convertJsonSchemaToMongoSchema v) =
      convertJsonSchemaToMongoSchema v := by
  intro n
  induction n using Nat.strong_induction_on with
  | _ n SIH =>
    intro v hv
    have HIH : ∀ w, jsize w < jsize v →
        convertJsonSchemaToMongoSchema (convertJsonSchemaToMongoSchema w) =
          convertJsonSchemaToMongoSchema w :=
      fun w hw => SIH (jsize w) (lt_of_lt_of_le hw hv) w le_rfl
    have hgoodInit : ∀ p ∈ applyTypeL (jsEntries v) (applyHintL (jsEntries v) []), goodEntry p :=
      good_applyTypeL _ _ (good_applyHintL _ _ (by intro p hp; cases hp))
    have hszes : lsizeO (jsEntries v) ≤ jsize v := le_of_lt (lsizeO_jsEntries_lt v)
    have hgoodOut : ∀ p ∈ copyLoop (jsEntries v)
        (applyTypeL (jsEntries v) (applyHintL (jsEntries v) [])), goodEntry p :=
      good_copyLoop (jsize v) HIH _ _ hszes hgoodInit
    have hndInit : nodupKeys (applyTypeL (jsEntries v) (applyHintL (jsEntries v) [])) :=
      nodupKeys_applyTypeL _ _ (nodupKeys_applyHintL _ _ (by simp [nodupKeys]))
    have hndOut : nodupKeys (copyLoop (jsEntries v)
        (applyTypeL (jsEntries v) (applyHintL (jsEntries v) []))) :=
      nodupKeys_copyLoop _ _ hndInit
    have hmt : jlookup (copyLoop (jsEntries v)
        (applyTypeL (jsEntries v) (applyHintL (jsEntries v) []))) "__mongoType" = none := by
      rw [copyLoop_lookup_skip "__mongoType" (by decide),
        applyTypeL_lookup_ne "__mongoType" (by decide),
        applyHintL_lookup_ne "__mongoType" (by decide)]
      rfl
    have hty : jlookup (copyLoop (jsEntries v)
        (applyTypeL (jsEntries v) (applyHintL (jsEntries v) []))) "type" = none := by
      rw [copyLoop_lookup_skip "type" (by decide),
        applyTypeL_lookup_ne "type" (by decide),
        applyHintL_lookup_ne "type" (by decide)]
      rfl
    rw [convert_def v]
    rw [convert_def (JValue.obj (copyLoop (jsEntries v)
      (applyTypeL (jsEntries v) (applyHintL (jsEntries v) []))))]
    rw [show ∀ kvs : List (String × JValue), jsEntries (JValue.obj kvs) = kvs from fun _ => rfl]
    rw [applyHintL_none hmt, applyTypeL_none hty]
    rw [copyLoop_rebuild _ [] hgoodOut hndOut (fun p _ => rfl)]
    simp

/-! ## Registry lemmas -/

theorem findTypeByValidator_append (v : Validator) :
    ∀ (l1 l2 : List (String × MongoTypeInfo)) (n : String) (i : MongoTypeInfo),
      i.schema.id = v.id → (∀ p ∈ l1, p.2.schema.id ≠ v.id) →
      findTypeByValidator (l1 ++ (n, i) :: l2) v = some n := by
  intro l1
  induction l1 with
  | nil =>
    intro l2 n i hid _
    simp only [List.nil_append, findTypeByValidator]
    rw [if_pos (by simpa using hid)]
  | cons p rest ih =>
    intro l2 n i hid hbef
    obtain ⟨n0, i0⟩ := p
    simp only [List.cons_append, findTypeByValidator]
    rw [if_neg (by simpa using hbef (n0, i0) (List.mem_cons_self _ _))]
    exact ih l2 n i hid (fun q hq => hbef q (List.mem_cons_of_mem _ hq))

theorem findTypeByValidator_mem {v : Validator} :
    ∀ {l : List (String × MongoTypeInfo)} {n : String},
      findTypeByValidator l v = some n →
      ∃ i, (n, i) ∈ l ∧ i.schema.id = v.id := by
  intro l
  induction l with
  | nil => intro n h; cases h
  | cons p rest ih =>
    intro n h
    obtain ⟨n0, i0⟩ := p
    simp only [findTypeByValidator] at h
    by_cases h0 : (i0.schema.id == v.id) = true
    · rw [if_pos h0] at h
      injection h with h
      subst h
      exact ⟨i0, List.mem_cons_self _ _, by simpa using h0⟩
    · rw [if_neg h0] at h
      obtain ⟨i, hm, hid⟩ := ih h
      exact ⟨i, List.mem_cons_of_mem _ hm, hid⟩

theorem find_map_of_mem :
    ∀ {l : List (String × MongoTypeInfo)} {n : String} {i : MongoTypeInfo},
      (l.map Prod.fst).Nodup → (n, i) ∈ l →
      (l.find? (fun p => p.1 == n)).map (fun p => p.2) = some i := by
  intro l
  induction l with
  | nil => intro n i _ h; cases h
  | cons p rest ih =>
    intro n i hnd hm
    obtain ⟨n0, i0⟩ := p
    simp only [List.map_cons] at hnd
    have hnd' := (List.nodup_cons.mp hnd).2
    have hn0 := (List.nodup_cons.mp hnd).1
    rcases List.mem_cons.mp hm with hm | hm
    · injection hm with hn hi
      subst hn
      subst hi
      rw [List.find?_cons_of_pos _ (by simp)]
      rfl
    · by_cases he : n0 = n
      · subst he
        exact absurd (List.mem_map_of_mem Prod.fst hm) hn0
      · rw [List.find?_cons_of_neg _ (by simpa using he)]
        exact ih hnd' hm

/-! ## Number-branch lemmas -/

theorem numberCheckStep_type (c : ZodCheck) (r : List (String × JValue)) :
    jlookup (numberCheckStep c r) "type" =
      if c.kind == some "int" then some (.str "integer") else jlookup r "type" := by
  unfold numberCheckStep
  by_cases hint : (c.kind == some "int") = true
  · rw [if_pos hint]
    rw [if_pos hint]
    split <;> (try split) <;> (try split) <;>
      first
        | exact jlookup_jsSet_self r "type" (.str "integer")
        | simp_all
  · rw [if_neg hint]
    rw [if_neg hint]
    split <;> (try split) <;> (try split) <;>
      first
        | rfl
        | rw [jlookup_jsSet_ne _ (by decide)]
        | simp_all

theorem numberChecksLoop_type :
    ∀ (checks : List ZodCheck) (r : List (String × JValue)),
      jlookup (numberChecksLoop checks r) "type" =
        if checks.any (fun c => c.kind == some "int") then some (.str "integer")
        else jlookup r "type" := by
  intro checks
  induction checks with
  | nil => intro r; simp [numberChecksLoop]
  | cons c rest ih =>
    intro r
    simp only [numberChecksLoop, List.any_cons]
    rw [ih (numberCheckStep c r), numberCheckStep_type]
    by_cases ha : (rest.any fun c => c.kind == some "int") = true
    · rw [if_pos ha, if_pos (by simp [ha])]
    · by_cases hint : (c.kind == some "int") = true
      · rw [if_neg ha, if_pos hint, if_pos (by simp [hint])]
      · rw [if_neg ha, if_neg hint, if_neg (by simp [hint, ha])]

/-! ## Claim theorems -/

/-- C1: evaluation of the adapter's object branch at the failing input
`z.object(\{a: z.string(), b: z.string().optional()\})`.  The repository's own
test (test/zod-adapter.test.ts, "converts optional date field") and the
specification both require `required == ["a"]`, but the code checks the
Zod-v3 field `typeName` on Zod-v4 defs — which is always absent — so the
optional wrapper is never recognized and both fields are marked required. -/
theorem zod_object_required_includes_optional :
    processZodType (.object [("a", .string []), ("b", .optional (.string []))]) none =
      .obj [("type", .str "object"),
            ("properties", .obj [("a", .obj [("type", .str "string")]),
                                 ("b", .obj [("type", .str "string")])]),
            ("required", .arr [.str "a", .str "b"])] := by
  simp [processZodType, processShape, requiredKeys, ZodType.defTypeName, stringChecksLoop]

/-- C9: the converter is idempotent — converting any JSON-Schema-shaped
document twice gives the same result as converting it once. -/
theorem convert_idempotent (kvs : List (String × JValue)) :
    convertJsonSchemaToMongoSchema (convertJsonSchemaToMongoSchema (.obj kvs)) =
      convertJsonSchemaToMongoSchema (.obj kvs) :=
  convertTwice (jsize (.obj kvs)) _ le_rfl

/-- C8: a node of unrecognized kind whose best-effort fallback is unavailable
or throws degrades to the permissive empty schema rather than an exception,
and the converter maps the empty schema to the empty schema. -/
theorem adapter_graceful_degradation :
    (∀ (tag : String) (customTypes : Option (List (String × String))),
      processZodType (.unknown tag none) customTypes = .obj [])
    ∧ convertJsonSchemaToMongoSchema (.obj []) = .obj [] := by
  constructor
  · intro tag customTypes
    simp [processZodType]
  · simp [convertJsonSchemaToMongoSchema, copyLoop, applyTypeL, applyHintL, jsEntries, jlookup]

/-- C2 (amended): when a node carries both a storage-type hint and a JSON
`type`, a non-empty string hint alone determines `bsonType` (known hints map
to themselves, any other non-empty string passes through verbatim) and the
`type` key is not consulted; an empty-string hint is falsy and is treated as
absent, and a non-string hint never contributes a `bsonType` — in both of
those cases the node proceeds to the normal type mapping. -/
theorem convert_hint_precedence (kvs : List (String × JValue)) (hv tv : JValue)
    (hhint : jlookup kvs "__mongoType" = some hv)
    (htype : jlookup kvs "type" = some tv)
    (hnob : jlookup kvs "bsonType" = none) :
    (∀ s : String, hv = .str s → s ≠ "" →
      jget (convertJsonSchemaToMongoSchema (.obj kvs)) "bsonType" = some (.str s))
    ∧ ((∀ s : String, hv ≠ .str s) →
      jget (convertJsonSchemaToMongoSchema (.obj kvs)) "bsonType" =
        (if truthy tv = true then some (jsMapTypeVal tv) else none))
    ∧ (hv = .str "" →
      jget (convertJsonSchemaToMongoSchema (.obj kvs)) "bsonType" =
        (if truthy tv = true then some (jsMapTypeVal tv) else none)) := by
  have hbase : jget (convertJsonSchemaToMongoSchema (.obj kvs)) "bsonType" =
      jlookup (applyTypeL kvs (applyHintL kvs [])) "bsonType" := by
    rw [convert_def]
    show jlookup (copyLoop kvs (applyTypeL kvs (applyHintL kvs []))) "bsonType" = _
    exact copyLoop_lookup_none kvs _ hnob
  have hfall : applyHintL kvs [] = ([] : List (String × JValue)) →
      jget (convertJsonSchemaToMongoSchema (.obj kvs)) "bsonType" =
        (if truthy tv = true then some (jsMapTypeVal tv) else none) := by
    intro h1
    rw [hbase, h1]
    by_cases ht : truthy tv = true
    · rw [applyTypeL_set kvs [] htype ht rfl, if_pos ht, jlookup_jsSet_self]
    · have ht2 : truthy tv = false := by simpa using ht
      rw [applyTypeL_falsy htype ht2, if_neg ht]
      rfl
  refine ⟨?_, ?_, ?_⟩
  · intro s hs hse
    subst hs
    have h1 : applyHintL kvs [] = [("bsonType", JValue.str s)] := by
      rw [applyHintL_str hhint hse]
      rfl
    have hb : truthyO (jlookup [("bsonType", JValue.str s)] "bsonType") = true := by
      simp [jlookup, truthyO, truthy, hse]
    rw [hbase, h1, applyTypeL_bson htype hb]
    simp [jlookup]
  · intro hns
    exact hfall (applyHintL_nonstr hhint hns)
  · intro he
    subst he
    exact hfall (applyHintL_falsy hhint (by simp [truthy]))

/-- C2 witness: a node with hint "decimal" and type "number" converts with
`bsonType` "decimal" — the hint wins over the type. -/
theorem convert_hint_precedence_witness :
    jget (convertJsonSchemaToMongoSchema (.obj
      [("__mongoType", .str "decimal"), ("type", .str "number")])) "bsonType" =
      some (.str "decimal") :=
  (convert_hint_precedence
    [("__mongoType", JValue.str "decimal"), ("type", JValue.str "number")]
    (JValue.str "decimal") (JValue.str "number") rfl rfl rfl).1 "decimal" rfl (by decide)

/-- C2 counterexample: an empty-string hint is a string, but it is falsy, so
contrary to the claim the JSON `type` IS consulted and the hint is not passed
through: the output `bsonType` is "double", not "". -/
theorem convert_empty_hint_counterexample :
    jget (convertJsonSchemaToMongoSchema (.obj
      [("__mongoType", .str ""), ("type", .str "number")])) "bsonType" =
      some (.str "double") := by
  simp [convertJsonSchemaToMongoSchema, copyLoop, transformEntry, propsLoop, convertElems,
    applyTypeL, applyHintL, jsEntries, enumEntries, jlookup, jsSet, truthy, truthyO,
    mapTypeElem, lookupStr, TYPE_MAPPING, skipKey, UNSUPPORTED_KEYWORDS, isObjLike, jget]

/-- C3 (amended): without a storage-type hint, a non-empty string `type` is
mapped through the fixed table with verbatim pass-through on a miss, and a
list `type` is mapped elementwise in order; the table is exactly
string→string, number→double, integer→int, boolean→bool, array→array,
object→object, null→null.  A scalar empty-string `type` is falsy and treated
as absent (no `bsonType` is emitted). -/
theorem convert_type_table (kvs : List (String × JValue)) (tv : JValue)
    (hnohint : jlookup kvs "__mongoType" = none)
    (htype : jlookup kvs "type" = some tv)
    (hnob : jlookup kvs "bsonType" = none) :
    (∀ t : String, tv = .str t → t ≠ "" →
      jget (convertJsonSchemaToMongoSchema (.obj kvs)) "bsonType" =
        some (.str ((lookupStr TYPE_MAPPING t).getD t)))
    ∧ (∀ xs : List JValue, tv = .arr xs →
      jget (convertJsonSchemaToMongoSchema (.obj kvs)) "bsonType" =
        some (.arr (xs.map mapTypeElem)))
    ∧ (lookupStr TYPE_MAPPING "string" = some "string" ∧
       lookupStr TYPE_MAPPING "number" = some "double" ∧
       lookupStr TYPE_MAPPING "integer" = some "int" ∧
       lookupStr TYPE_MAPPING "boolean" = some "bool" ∧
       lookupStr TYPE_MAPPING "array" = some "array" ∧
       lookupStr TYPE_MAPPING "object" = some "object" ∧
       lookupStr TYPE_MAPPING "null" = some "null") := by
  have hbase : jget (convertJsonSchemaToMongoSchema (.obj kvs)) "bsonType" =
      jlookup (applyTypeL kvs (applyHintL kvs [])) "bsonType" := by
    rw [convert_def]
    show jlookup (copyLoop kvs (applyTypeL kvs (applyHintL kvs []))) "bsonType" = _
    exact copyLoop_lookup_none kvs _ hnob
  have h1 : applyHintL kvs [] = ([] : List (String × JValue)) := applyHintL_none hnohint
  refine ⟨?_, ?_, by decide⟩
  · intro t htv hte
    subst htv
    rw [hbase, h1, applyTypeL_set kvs [] htype (by simp [truthy, hte]) rfl,
      jlookup_jsSet_self]
    rfl
  · intro xs htv
    subst htv
    rw [hbase, h1, applyTypeL_set kvs [] htype rfl rfl, jlookup_jsSet_self]
    rfl

/-- C3 witness: an unrecognized non-empty type name passes through the table
lookup with getD fallback. -/
theorem convert_type_table_witness :
    jget (convertJsonSchemaToMongoSchema (.obj [("type", .str "customType")])) "bsonType" =
      some (.str ((lookupStr TYPE_MAPPING "customType").getD "customType")) :=
  (convert_type_table [("type", JValue.str "customType")] (JValue.str "customType")
    rfl rfl rfl).1 "customType" rfl (by decide)

/-- C3 counterexample: the scalar type "" is a string, but it is falsy, so
contrary to the claim it is not passed through verbatim — no `bsonType` key
is emitted at all. -/
theorem convert_empty_type_counterexample :
    jget (convertJsonSchemaToMongoSchema (.obj [("type", .str "")])) "bsonType" = none := by
  simp [convertJsonSchemaToMongoSchema, copyLoop, transformEntry, propsLoop, convertElems,
    applyTypeL, applyHintL, jsEntries, enumEntries, jlookup, jsSet, truthy, truthyO,
    mapTypeElem, lookupStr, TYPE_MAPPING, skipKey, UNSUPPORTED_KEYWORDS, isObjLike, jget]

/-- C4: for every key of an input node, the converted output omits the key
exactly when it is `type` or a denylisted keyword (`skipKey`), and every
other non-structural key keeps its value unchanged. -/
theorem convert_key_frame (kvs : List (String × JValue)) (hnd : nodupKeys kvs)
    (k : String) (hk : (jlookup kvs k).isSome = true) :
    ((jget (convertJsonSchemaToMongoSchema (.obj kvs)) k).isSome = true ↔ skipKey k = false)
    ∧ (skipKey k = false → structuralKey k = false →
      jget (convertJsonSchemaToMongoSchema (.obj kvs)) k = jlookup kvs k) := by
  obtain ⟨v, hv⟩ := Option.isSome_iff_exists.mp hk
  have hbase : jget (convertJsonSchemaToMongoSchema (.obj kvs)) k =
      if skipKey k then jlookup (applyTypeL kvs (applyHintL kvs [])) k
      else some (transformEntry k v) := by
    rw [convert_def]
    show jlookup (copyLoop kvs (applyTypeL kvs (applyHintL kvs []))) k = _
    exact copyLoop_lookup_some kvs _ hnd hv
  constructor
  · by_cases hs : skipKey k = true
    · have hkb : k ≠ "bsonType" := by
        intro he
        rw [he] at hs
        exact absurd hs (by decide)
      rw [hbase, if_pos hs, applyTypeL_lookup_ne k hkb, applyHintL_lookup_ne k hkb]
      simp [jlookup, hs]
    · have hs2 : skipKey k = false := by simpa using hs
      rw [hbase, if_neg hs]
      simp [hs2]
  · intro hs1 hs2
    rw [hbase, if_neg (by rw [hs1]; exact Bool.false_ne_true), transformEntry_other hs2, hv]

/-- C4 witness: `title` (denylisted) is dropped while `minLength`
(non-structural, not denylisted) survives with its value unchanged. -/
theorem convert_key_frame_witness :
    jget (convertJsonSchemaToMongoSchema (.obj
      [("type", .str "string"), ("title", .str "T"), ("minLength", .num 3)])) "minLength" =
      some (.num 3) ∧
    (jget (convertJsonSchemaToMongoSchema (.obj
      [("type", .str "string"), ("title", .str "T"), ("minLength", .num 3)])) "title").isSome
      = false :=
  ⟨((convert_key_frame _ (by decide) "minLength" (by decide)).2 (by decide) (by decide)).trans
    rfl,
   by
    have h := ((convert_key_frame
      [("type", JValue.str "string"), ("title", .str "T"), ("minLength", .num 3)]
      (by decide) "title" (by decide)).1)
    rcases hx : (jget (convertJsonSchemaToMongoSchema (.obj
      [("type", JValue.str "string"), ("title", .str "T"), ("minLength", .num 3)]))
      "title").isSome with _ | _
    · rfl
    · rw [hx] at h
      have := h.mp rfl
      exact absurd this (by decide)⟩

/-- C5: `findByValidator` resolves by reference identity of the stored
validator, first match in insertion order: if the registry's entry list
splits as `l1 ++ (n, i) :: l2` where `i` holds the looked-up reference and no
entry of `l1` does (structurally identical validators with other identities
may well occur in `l1`), the result is `n`. -/
theorem findByValidator_first_match (r : MongoTypeRegistry) (v : Validator)
    (l1 l2 : List (String × MongoTypeInfo)) (n : String) (i : MongoTypeInfo)
    (hsplit : r._types = l1 ++ (n, i) :: l2)
    (hid : i.schema.id = v.id)
    (hbefore : ∀ p ∈ l1, p.2.schema.id ≠ v.id) :
    r.findByValidator v = some n := by
  unfold MongoTypeRegistry.findByValidator
  rw [hsplit]
  exact findTypeByValidator_append v l1 l2 n i hid hbefore

/-- C5 witness: two entries whose validators have identical bodies but
distinct identities are not conflated — looking up the second validator
resolves the second entry. -/
theorem findByValidator_first_match_witness :
    MongoTypeRegistry.findByValidator
      ⟨[("ta", ⟨⟨1, "checkFn"⟩, "objectId"⟩), ("tb", ⟨⟨2, "checkFn"⟩, "date"⟩)]⟩
      ⟨2, "checkFn"⟩ = some "tb" :=
  findByValidator_first_match _ _ [("ta", ⟨⟨1, "checkFn"⟩, "objectId"⟩)] [] "tb"
    ⟨⟨2, "checkFn"⟩, "date"⟩ rfl rfl (by decide)

/-- C6: for a custom validator node, a supplied registry is consulted through
the identity-based `findByValidator`; on a match the adapter emits the string
placeholder carrying the resolved storage type as the hint, and on failure
(no registry, or no identity match) it degrades to the permissive empty
schema without error. -/
theorem adaptCustom_registry_spec (v : Validator) (r : MongoTypeRegistry)
    (hnd : (r._types.map Prod.fst).Nodup) :
    (∀ n, r.findByValidator v = some n →
      ∃ info, r.get n = some info ∧ info.schema.id = v.id ∧
        adaptCustomWithRegistry v (some r) =
          .obj [("type", .str "string"), ("__mongoType", .str info.bsonType)])
    ∧ (r.findByValidator v = none → adaptCustomWithRegistry v (some r) = .obj [])
    ∧ adaptCustomWithRegistry v none = .obj [] := by
  refine ⟨?_, ?_, rfl⟩
  · intro n hn
    obtain ⟨info, hm, hid⟩ := findTypeByValidator_mem hn
    have hget : r.get n = some info := find_map_of_mem hnd hm
    refine ⟨info, hget, hid, ?_⟩
    simp only [adaptCustomWithRegistry, hn, hget]
  · intro hn
    simp only [adaptCustomWithRegistry, hn]

/-- C6 witness: a registry holding one custom type resolves a custom node
with the matching validator reference to the string placeholder with the
registered storage type. -/
theorem adaptCustom_registry_spec_witness :
    adaptCustomWithRegistry ⟨7, "isObjectId"⟩
      (some ⟨[("objectId", ⟨⟨7, "isObjectId"⟩, "objectId"⟩)]⟩) =
      .obj [("type", .str "string"), ("__mongoType", .str "objectId")] := by
  obtain ⟨info, hget, _, hres⟩ :=
    (adaptCustom_registry_spec ⟨7, "isObjectId"⟩
      ⟨[("objectId", ⟨⟨7, "isObjectId"⟩, "objectId"⟩)]⟩ (by decide)).1 "objectId" rfl
  have h3 : some info = some (⟨⟨7, "isObjectId"⟩, "objectId"⟩ : MongoTypeInfo) :=
    hget.symm.trans rfl
  injection h3 with h4
  rw [h4] at hres
  exact hres

/-- C7 (amended): the adapter emits type "number", upgraded to "integer"
exactly when some entry of the constraint list has kind 'int'; the
directly-exposed boolean flag `isInt` on a check is not consulted, and with
no kind-'int' entry the type stays "number". -/
theorem zod_number_integer_detection (checks : List ZodCheck)
    (customTypes : Option (List (String × String))) :
    jget (processZodType (.number checks) customTypes) "type" =
      some (.str (if checks.any (fun c => c.kind == some "int") then "integer"
                  else "number")) := by
  have h : processZodType (.number checks) customTypes =
      .obj (numberChecksLoop checks [("type", .str "number")]) := by
    simp only [processZodType]
  rw [h]
  show jlookup (numberChecksLoop checks [("type", .str "number")]) "type" = _
  rw [numberChecksLoop_type]
  by_cases ha : (checks.any fun c => c.kind == some "int") = true
  · rw [if_pos ha, if_pos ha]
  · rw [if_neg ha, if_neg ha]
    rfl

/-- C7 counterexample: a number node whose only check carries the boolean
integer flag (isInt), with no kind tag, is NOT upgraded — the adapter leaves
the type at "number", refuting the claim that the boolean-flag shape is
detected. -/
theorem zod_number_int_flag_counterexample :
    jget (processZodType (.number [⟨none, none, none, true⟩]) none) "type" =
      some (.str "number") := by
  simp [processZodType, numberChecksLoop, numberCheckStep, jsSet, jlookup, jget]

/-- C10: an entry of a node's `properties` map whose value is not
object-like (here: a boolean sub-schema) is silently dropped: the output's
`properties` is the filtered rebuild, in which the key does not occur. -/
theorem convert_drops_nonobject_props (kvs pkvs : List (String × JValue))
    (pk : String) (pv : JValue)
    (hnd : nodupKeys kvs) (hpnd : nodupKeys pkvs)
    (hprops : jlookup kvs "properties" = some (.obj pkvs))
    (hin : jlookup pkvs pk = some pv)
    (hno : isObjLike pv = false) :
    jget (convertJsonSchemaToMongoSchema (.obj kvs)) "properties" =
      some (.obj (propsLoop pkvs [])) ∧
    jlookup (propsLoop pkvs []) pk = none := by
  constructor
  · rw [convert_def]
    show jlookup (copyLoop kvs (applyTypeL kvs (applyHintL kvs []))) "properties" = _
    rw [copyLoop_lookup_some kvs _ hnd hprops]
    rw [if_neg (by decide), transformEntry_props (by rfl)]
    rfl
  · rw [propsLoop_lookup_some pkvs [] hpnd hin,
      if_neg (by rw [hno]; exact Bool.false_ne_true)]
    rfl

/-- C10 witness: a boolean sub-schema under `properties` is dropped from the
converted output. -/
theorem convert_drops_nonobject_props_witness :
    jget (convertJsonSchemaToMongoSchema (.obj
      [("properties", .obj [("a", .bool true)])])) "properties" =
      some (.obj (propsLoop [("a", JValue.bool true)] [])) ∧
    jlookup (propsLoop [("a", JValue.bool true)] []) "a" = none :=
  convert_drops_nonobject_props [("properties", JValue.obj [("a", JValue.bool true)])]
    [("a", JValue.bool true)] "a" (JValue.bool true) (by decide) (by decide) rfl rfl rfl

end SchemaMongo
